import Mathlib

/-!
Verification development for the simple_network_shell repository
(src/server.c, src/client.c, src/redirections.c).

The C code is shallowly embedded: command lines are lists of `Char`,
socket writes become an explicit event list, and the OS-dependent parts
(`chdir`, the bytes a pipeline's stages produce on the result pipe, the
byte that `write(fd, "[END]", 7)` reads past the end of the string
literal) are oracle parameters of type `Orc`.  Every definition mirrors
the corresponding function in src/ and keeps its name where possible.
-/

/-- A write/system event performed by the server on behalf of one client.
Each constructor corresponds to one kind of `write`/`killpg` call in
src/server.c.  `data` is a `write(fd, buf, n)` of ordinary bytes (captured
pipeline output, info or error text).  `end7` is the final
`write(client_fd, "[END]", 7)` of `execute_command` (server.c:282): seven
bytes are written from the six-byte literal, so the marker is followed by
the NUL terminator and one unspecified out-of-bounds byte (the oracle's
`junk`).  All other marker writes use the exact literal length.
`groupKill` is `killpg(0, SIGTERM)`; `crash` marks undefined behaviour
(`strcmp(NULL, ...)` or glibc double-free abort) after which the worker
process makes no further writes. -/
inductive Ev where
  | data : Int → List Char → Ev
  | haltM : Int → Ev
  | end5 : Int → Ev
  | end7 : Int → Char → Ev
  | abortM : Int → Ev
  | quitM : Int → Ev
  | groupKill : Ev
  | crash : Ev
deriving DecidableEq

/-- Whether an event is the write of a terminal protocol marker
([END], [HALT], [QUIT] or [ABORT]). -/
def isMarkerEv : Ev → Bool
  | Ev.haltM _ => true
  | Ev.end5 _ => true
  | Ev.end7 _ _ => true
  | Ev.abortM _ => true
  | Ev.quitM _ => true
  | _ => false

/-- Number of terminal-marker writes in an event list. -/
def countTerminal (evs : List Ev) : Nat := (evs.filter isMarkerEv).length

/-- The bytes a single event puts on the wire. -/
def evBytes : Ev → List Char
  | Ev.data _ bs => bs
  | Ev.haltM _ => "[HALT]".toList
  | Ev.end5 _ => "[END]".toList
  | Ev.end7 _ junk => "[END]".toList ++ [Char.ofNat 0, junk]
  | Ev.abortM _ => "[ABORT]".toList
  | Ev.quitM _ => "[QUIT]".toList
  | Ev.groupKill => []
  | Ev.crash => []

/-- The byte stream of an event list. -/
def flattenEvs (evs : List Ev) : List Char := (evs.map evBytes).flatten

/-- Environment oracle for the embedded server: `chd cwd p` is the result
of `chdir(p)` from working directory `cwd` (`none` = failure), `outs k`
is the byte sequence the k-th executed pipeline of the command line
delivers on the result pipe, `junk` is the out-of-bounds byte of the
7-byte `[END]` write, `cwd0` the initial working directory. -/
structure Orc where
  chd : List Char → List Char → Option (List Char)
  outs : Nat → List Char
  junk : Char
  cwd0 : List Char

/-- A fully parsed pipeline stage: completed argument vector (the argv
entries before the terminating NULL), the input/output redirection flags
`input_file_flags[i]` / `output_file_flags[i]` (0 none, 1 truncate,
2 append) and the single shared `filenames[i]` slot of server.c. -/
structure Stage where
  args : List (List Char)
  inF : Bool
  outF : Nat
  fname : List Char
deriving DecidableEq

/-- Help text of the `help` built-in (server.c:132).  `snprintf` caps the
message at 255 characters plus NUL, and the full text is longer, so the
transmitted bytes are the 255-character truncation. -/
def helpText : String :=
  "[HELP] Available internal commands:\n" ++
  "  help           Show this message\n" ++
  "  cd <path>      Change working directory\n" ++
  "  halt           Shut down the entire server\n" ++
  "  quit           Disconnect current client\n" ++
  "  stat           Show active connections (server only)\n" ++
  "  abort <id>     Force-close a specific connection by ID\n"

/-- Bytes actually written for `help`. -/
def helpMsg : List Char := helpText.toList.take 255

/-- Error text of `cd` without argument (server.c:154). -/
def cdMissingMsg : List Char := "[ERROR] cd: missing argument\n".toList

/-- Error text of `cd` when `chdir` fails (server.c:156). -/
def cdNoDirMsg : List Char := "[ERROR] cd: directory doesn't exist\n".toList

/-- Info text of a successful `cd` (server.c:158), capped by `snprintf`. -/
def cdChangedMsg (p : List Char) : List Char :=
  ("[INFO] Changed directory to: ".toList ++ p ++ ['\n']).take 255

/-- Info text when pipeline output went to a file (server.c:275). -/
def savedMsg (f : List Char) : List Char :=
  ("[INFO] Output saved to file: ".toList ++ f ++ ['\n']).take 255

/-- Embedding of `execute_command` (server.c:112-286), restricted to its
observable effects: the list of write/system events on the client socket,
the resulting working directory, and whether the serving process stops
(halt's `killpg`, or undefined behaviour).  `stages` is the parsed
pipeline (`args`/`filenames`/flags arrays with `row_number = length - 1`),
`notAll` is `not_all_flag`, `out` the bytes read from the result pipe.
The parent forwards the result-pipe bytes to the socket only when
`client_fd > 0` (server.c:256); the chunked read loop is collapsed into a
single `data` event carrying the same bytes.  After the `waitpid` loop,
`bytes_read` is always 0, so the `[INFO] Output saved to file` line is
written (unconditionally on the fd, server.c:276) whenever some stage has
an output redirection flag.  An empty first argument vector makes
`strcmp(args[0][0], "halt")` dereference NULL - undefined behaviour,
modelled as `crash`. -/
def execute_command (O : Orc) (fd : Int) (stages : List Stage) (notAll : Bool)
    (out cwd : List Char) : List Ev × List Char × Bool :=
  match stages with
  | [] => ([Ev.crash], cwd, true)
  | s0 :: _ =>
    match s0.args with
    | [] => ([Ev.crash], cwd, true)
    | a0 :: _ =>
      if a0 = "halt".toList then
        ((if 0 < fd then [Ev.haltM fd, Ev.end5 fd] else []) ++ [Ev.groupKill], cwd, true)
      else if a0 = "help".toList then
        ((if 0 < fd then [Ev.data fd helpMsg, Ev.end5 fd] else []), cwd, false)
      else if a0 = "cd".toList then
        match s0.args[1]? with
        | none => ((if 0 < fd then [Ev.data fd cdMissingMsg, Ev.end5 fd] else []), cwd, false)
        | some p =>
          match O.chd cwd p with
          | none => ((if 0 < fd then [Ev.data fd cdNoDirMsg, Ev.end5 fd] else []), cwd, false)
          | some cwd2 =>
            ((if 0 < fd then [Ev.data fd (cdChangedMsg p), Ev.end5 fd] else []), cwd2, false)
      else
        let dataEvs := if 0 < fd ∧ out ≠ [] then [Ev.data fd out] else []
        let infoEvs :=
          match stages.find? (fun s => !decide (s.outF = 0)) with
          | some s => [Ev.data fd (savedMsg s.fname)]
          | none => []
        let endEvs := if notAll then [] else [Ev.end7 fd O.junk]
        (dataEvs ++ infoEvs ++ endEvs, cwd, false)

/-- Stage under construction inside `handle_command`'s scan loop:
completed arguments of the current stage (index `j` = length), the
in-progress argument (index `l` = length), and the current stage's
redirection flags and filename slot. -/
structure StageB where
  argsDone : List (List Char)
  curArg : List Char
  inF : Bool
  outF : Nat
  fname : List Char
deriving DecidableEq

/-- A freshly calloc'd stage row. -/
def freshB : StageB := { argsDone := [], curArg := [], inF := false, outF := 0, fname := [] }

/-- Close the in-progress argument (the `if (l > 0) { args[i][j][l] = 0; j++; }`
idiom) and package the stage. -/
def finishStage (b : StageB) : Stage :=
  { args := if b.curArg = [] then b.argsDone else b.argsDone ++ [b.curArg],
    inF := b.inF, outF := b.outF, fname := b.fname }

/-- Parser state of `handle_command`: completed stages (index `i` =
length of `done`), current stage, write events emitted by executions
triggered at each `;`, current working directory, number of executed
segments (`seg` indexes the `outs` oracle), the capacity of the flag
arrays (10 as first calloc'd, 20 after the reset at `;`), whether any
out-of-bounds write has happened, and whether undefined behaviour
stopped the process. -/
structure HSt where
  done : List Stage
  cur : StageB
  evs : List Ev
  cwd : List Char
  seg : Nat
  flagCap : Nat
  oob : Bool
  crashed : Bool
deriving DecidableEq

/-- Out-of-bounds test for a write at `args[i][j][l]`: each argument
buffer is `calloc(20, 1)` (indices 0..19), each row holds
`num_args_per_command = 5` argument pointers (j in 0..4) and there are
`num_commands = 10` rows (i in 0..9). -/
def argWriteOOB (i j l : Nat) : Bool :=
  decide (20 ≤ l) || decide (5 ≤ j) || decide (10 ≤ i)

/-- Out-of-bounds test for the argv-terminator write `args[i][j] = NULL`. -/
def nullSlotOOB (i j : Nat) : Bool := decide (5 ≤ j) || decide (10 ≤ i)

/-- Out-of-bounds test for a redirection at stage `i`: `read_filename`'s
buffer is `calloc(20, 1)` (an in-bounds write needs filename length at
most 20, index at most 19... a length of 21 or more writes past it), and
the flag arrays hold `flagCap` ints. -/
def redirSetOOB (st : HSt) (flen : Nat) : Bool :=
  decide (21 ≤ flen) || decide (st.flagCap ≤ st.done.length)

/-- The space branch (server.c:344-352): close the current argument. -/
def spaceStep (st : HSt) : HSt :=
  if st.cur.curArg = [] then st
  else
    { st with
      oob := st.oob || argWriteOOB st.done.length st.cur.argsDone.length st.cur.curArg.length,
      cur := { st.cur with argsDone := st.cur.argsDone ++ [st.cur.curArg], curArg := [] } }

/-- The default branch (server.c:423): store one character,
`args[i][j][l++] = *cur_char`. -/
def charStep (st : HSt) (c : Char) : HSt :=
  { st with
    oob := st.oob || argWriteOOB st.done.length st.cur.argsDone.length st.cur.curArg.length,
    cur := { st.cur with curArg := st.cur.curArg ++ [c] } }

/-- Set an output redirection (mode 1 = `>`, 2 = `>>`) with its filename. -/
def redirOut (st : HSt) (f : List Char) (m : Nat) : HSt :=
  { st with
    oob := st.oob || redirSetOOB st f.length,
    cur := { st.cur with outF := m, fname := f } }

/-- Set an input redirection with its filename. -/
def redirIn (st : HSt) (f : List Char) : HSt :=
  { st with
    oob := st.oob || redirSetOOB st f.length,
    cur := { st.cur with inF := true, fname := f } }

/-- Out-of-bounds accounting for closing the current argument and writing
the argv NULL terminator (the `;`, `|` and end-of-line branches). -/
def closeNullOOB (st : HSt) : Bool :=
  (if 0 < st.cur.curArg.length then
      argWriteOOB st.done.length st.cur.argsDone.length st.cur.curArg.length
    else false)
  || nullSlotOOB st.done.length
      (st.cur.argsDone.length + (if 0 < st.cur.curArg.length then 1 else 0))

/-- The `|` branch (server.c:410-421): close the stage, start the next. -/
def pipeStep (st : HSt) : HSt :=
  { st with
    oob := st.oob || closeNullOOB st,
    done := st.done ++ [finishStage st.cur],
    cur := freshB }

/-- The `;` branch (server.c:378-408): close the stage, execute the
pipeline collected so far with `not_all_flag = 1`, then reset the
argument storage.  The reset re-callocs the flag arrays with capacity 20.
The cleanup loop `for (row = 0; row <= i; row++) free(filenames[i]);`
frees the same pointer `i+1` times; when `i >= 1` and that slot was set
by a redirection this is a double free (glibc aborts) - modelled as a
crash after the segment's events (which reached the socket before the
free loop runs), with no further bytes written.  The per-slot re-calloc
of argument buffers is modelled as a full reset; stale NULL argv slots
beyond the executed segment's final argument index are not tracked (no
theorem below depends on a line that reuses such a slot). -/
def semiStep (O : Orc) (fd : Int) (st : HSt) : HSt :=
  let s := finishStage st.cur
  let r := execute_command O fd (st.done ++ [s]) true (O.outs st.seg) st.cwd
  let oob2 := st.oob || closeNullOOB st
  if r.2.2 then
    { st with evs := st.evs ++ r.1, cwd := r.2.1, oob := oob2, crashed := true }
  else if 1 ≤ st.done.length ∧ (s.inF = true ∨ s.outF ≠ 0) then
    { st with evs := st.evs ++ r.1 ++ [Ev.crash], cwd := r.2.1, oob := oob2, crashed := true }
  else
    { done := [], cur := freshB, evs := st.evs ++ r.1, cwd := r.2.1,
      seg := st.seg + 1, flagCap := 20, oob := oob2, crashed := false }

/-- Delimiters at which `read_filename` (server.c:56-70) stops:
`;`, `|`, newline and the NUL terminator. -/
def rfStop (c : Char) : Bool :=
  c == ';' || c == '|' || c == '\n' || c == Char.ofNat 0

/-- Embedding of `read_filename`: skip spaces, collect every other
character until a delimiter; returns the filename and the rest of the
input (the cursor position).  Note that `<` and `>` are NOT delimiters:
they are collected into the filename. -/
def read_filename : List Char → List Char × List Char
  | [] => ([], [])
  | c :: rest =>
    if rfStop c then ([], c :: rest)
    else if c == ' ' then read_filename rest
    else (c :: (read_filename rest).1, (read_filename rest).2)

/-- The scan loop of `handle_command` (server.c:343-424), structurally
recursive on a fuel that bounds the number of loop iterations (each
iteration consumes at least one character, so `cs.length` fuel is always
enough).  The branch order and conditions mirror the C cascade:
space, `<<<` (skipped), `>>`, `>`, `<`, `;`, `|`, default character.
The loop stops at a newline; reaching the end of the list without a
newline is modelled as stopping (command lines handed to the server
always carry a trailing newline). -/
def handle_command_loop (O : Orc) (fd : Int) : Nat → List Char → HSt → HSt
  | 0, _, st => st
  | _ + 1, [], st => st
  | fuel + 1, c :: rest, st =>
    if c = '\n' then st
    else if c = ' ' then handle_command_loop O fd fuel rest (spaceStep st)
    else if c = '<' ∧ rest.take 2 = ['<', '<'] then
      handle_command_loop O fd fuel (rest.drop 2) st
    else if c = '>' ∧ rest.take 1 = ['>'] then
      handle_command_loop O fd fuel (read_filename (rest.drop 1)).2
        (redirOut st (read_filename (rest.drop 1)).1 2)
    else if c = '>' then
      handle_command_loop O fd fuel (read_filename rest).2
        (redirOut st (read_filename rest).1 1)
    else if c = '<' then
      handle_command_loop O fd fuel (read_filename rest).2
        (redirIn st (read_filename rest).1)
    else if c = ';' then
      if (semiStep O fd st).crashed then semiStep O fd st
      else handle_command_loop O fd fuel rest (semiStep O fd st)
    else if c = '|' then handle_command_loop O fd fuel rest (pipeStep st)
    else handle_command_loop O fd fuel rest (charStep st c)

/-- Initial parser state (fresh callocs, flag arrays of capacity 10). -/
def initSt (O : Orc) : HSt :=
  { done := [], cur := freshB, evs := [], cwd := O.cwd0, seg := 0,
    flagCap := 10, oob := false, crashed := false }

/-- Run the scan loop of `handle_command` on a command line. -/
def parseRun (O : Orc) (fd : Int) (cs : List Char) : HSt :=
  handle_command_loop O fd cs.length cs (initSt O)

/-- The pipeline left in the argument arrays when the scan loop stops:
completed stages plus the current stage with its in-progress argument
closed. -/
def parsedStages (O : Orc) (fd : Int) (cs : List Char) : List Stage :=
  (parseRun O fd cs).done ++ [finishStage (parseRun O fd cs).cur]

/-- The guard `if (j == 0 || args[0][0] == NULL)` (server.c:433): the
final stage has no completed argument, or the first stage's argv is
empty (its slot 0 was set to NULL by a `|` with no preceding argument). -/
def guardFails (st : HSt) : Bool :=
  decide ((finishStage st.cur).args = [])
  || decide ((st.done.headD (finishStage st.cur)).args = [])

/-- Whether the command line reaches the final `execute_command` call. -/
def accepted (O : Orc) (fd : Int) (cs : List Char) : Bool :=
  !(parseRun O fd cs).crashed && !guardFails (parseRun O fd cs)

/-- First token of the parsed command line (`args[0][0]`), empty if none. -/
def firstTok (O : Orc) (fd : Int) (cs : List Char) : List Char :=
  ((parseRun O fd cs).done.headD (finishStage (parseRun O fd cs).cur)).args.headD []

/-- Embedding of `handle_command` (server.c:303-453): scan the line
(executing `;`-separated segments on the way), then either return
without any write (empty command guard) or execute the final pipeline
with `not_all_flag = 0`. -/
def handle_command (O : Orc) (fd : Int) (cs : List Char) : HSt :=
  let st := parseRun O fd cs
  if st.crashed then st
  else if guardFails st then { st with oob := st.oob || closeNullOOB st }
  else
    let r := execute_command O fd (st.done ++ [finishStage st.cur]) false
        (O.outs st.seg) st.cwd
    { st with
      evs := st.evs ++ r.1, cwd := r.2.1, crashed := r.2.2,
      oob := st.oob || closeNullOOB st }

/-- How a stage's stdin is wired in the forked child (server.c:200-204):
input redirection opens `filenames[i]` read-only (`input_redirection`,
redirections.c O_RDONLY) and installs it; otherwise stage i reads pipe
i-1; stage 0 inherits. -/
inductive ChildIn where
  | fileRead : List Char → ChildIn
  | pipeFrom : Nat → ChildIn
  | inherited : ChildIn
deriving DecidableEq

/-- How a stage's stdout is wired (server.c:207-215): flag 1 opens the
filename with O_TRUNC, flag 2 with O_APPEND; otherwise non-last stages
write pipe i and the last stage writes the result pipe. -/
inductive ChildOut where
  | fileTrunc : List Char → ChildOut
  | fileAppend : List Char → ChildOut
  | pipeTo : Nat → ChildOut
  | resultPipe : ChildOut
deriving DecidableEq

/-- Stdin wiring of stage `i`. -/
def stage_stdin (s : Stage) (i : Nat) : ChildIn :=
  if s.inF then ChildIn.fileRead s.fname
  else if 0 < i then ChildIn.pipeFrom (i - 1)
  else ChildIn.inherited

/-- Stdout wiring of stage `i` of a pipeline with `row_number = n`. -/
def stage_stdout (s : Stage) (i n : Nat) : ChildOut :=
  if s.outF = 1 then ChildOut.fileTrunc s.fname
  else if s.outF = 2 then ChildOut.fileAppend s.fname
  else if i < n then ChildOut.pipeTo i
  else ChildOut.resultPipe

/-- A node of the coordinator's connection list (server.c:474-479). -/
structure connection_node where
  id : Int
  fd : Int
  pid : Int
deriving DecidableEq

/-- Embedding of `find_fd` (server.c:493-506).  The C guards use integer
truthiness: a zero `sender_pid`/`abort_id` disables that comparison. -/
def find_fd : List connection_node → Int → Int → Int
  | [], _, _ => -1
  | n :: rest, sender_pid, abort_id =>
    if sender_pid ≠ 0 ∧ n.pid = sender_pid then n.fd
    else if abort_id ≠ 0 ∧ n.id = abort_id then n.fd
    else find_fd rest sender_pid abort_id

/-- Embedding of `abort_connection` (server.c:518-540), restricted to its
effect on the list: the first node whose id or pid matches is unlinked
and freed (the kill/waitpid/close side effects are outside the list). -/
def abort_connection : List connection_node → Int → Int → List connection_node
  | [], _, _ => []
  | n :: rest, id, pid =>
    if n.id = id ∨ n.pid = pid then rest
    else n :: abort_connection rest id pid

/-- The requester-side info text of the coordinator's abort handling
(server.c:612). -/
def infoAborted (t : Int) : List Char :=
  ("[INFO] Aborted connection for ID " ++ toString t ++ "\n").toList

/-- Embedding of the `abort` branch of `main_server_loop`
(server.c:603-636): compute the requester's and the target's socket via
`find_fd`, write the acknowledgement frames, then remove the target from
the connection list. -/
def abort_request_step (l : List connection_node) (arg_id sender_pid : Int) :
    List Ev × List connection_node :=
  let sender_fd := find_fd l sender_pid (-1)
  let arg_fd := find_fd l (-1) arg_id
  let evs :=
    if sender_fd = arg_fd then [Ev.abortM arg_fd, Ev.end5 arg_fd]
    else
      (if 0 ≤ sender_fd then [Ev.data sender_fd (infoAborted arg_id), Ev.end5 sender_fd]
        else [])
      ++ (if 0 ≤ arg_fd then [Ev.abortM arg_fd, Ev.end5 arg_fd] else [])
  (evs, abort_connection l arg_id (-1))

/-- C-string truncation: `printf("%s", ...)` prints up to the first NUL. -/
def cstr (l : List Char) : List Char := l.takeWhile (fun c => !(c == Char.ofNat 0))

/-- `strncmp(buf, pat, |pat|) == 0`: `pat` begins the buffer. -/
def leadsWith : List Char → List Char → Bool
  | [], _ => true
  | _ :: _, [] => false
  | p :: ps, b :: bs => p == b && leadsWith ps bs

/-- `strstr`: split `l` at the first occurrence of `pat`, returning the
bytes before it and the tail starting at the occurrence. -/
def splitSub (pat : List Char) : List Char → Option (List Char × List Char)
  | [] => if leadsWith pat [] then some ([], []) else none
  | c :: rest =>
    if leadsWith pat (c :: rest) then some ([], c :: rest)
    else
      match splitSub pat rest with
      | some (pre, post) => some (c :: pre, post)
      | none => none

/-- Whether `pat` occurs anywhere in `l`. -/
def hasSub (pat l : List Char) : Bool := (splitSub pat l).isSome

/-- How the client process exits (client.c:200-211). -/
inductive CExit where
  | halt
  | quit
  | abortx
deriving DecidableEq

/-- Client state over the response-reading loop: the
`waiting_for_response` flag, bytes printed to the terminal, and whether
(and how) the process has exited. -/
structure CliSt where
  waiting : Bool
  out : List Char
  exited : Option CExit
deriving DecidableEq

/-- Message printed when the client sees `[HALT]` (client.c:201). -/
def haltNote : List Char := "[CLIENT] Server halted. Exiting.\n".toList

/-- Message printed when the client sees `[QUIT]` (client.c:205). -/
def quitNote : List Char := "[CLIENT] Quit command received. Disconnecting.\n".toList

/-- Message printed when the client sees `[ABORT]` (client.c:209). -/
def abortNote : List Char := "\n[CLIENT] Abort!\n".toList

/-- Embedding of the body of the client's read loop
(client.c:196-232) for one `read` buffer: result is (exit, printed
bytes, new waiting flag).  `[HALT]`, `[QUIT]` and `[ABORT]` are matched
only as a PREFIX of the single buffer (`strncmp(buffer, ..., n)`),
regardless of the waiting flag; `[END]` is found by `strstr` within the
single buffer, only while waiting, and the bytes before it are printed
(`printf("%s\n", ...)` stops at the first NUL and appends a newline);
otherwise, while waiting, the buffer is printed as ongoing data.  The
prompt redisplay is presentation and is not modelled. -/
def main_connection_step (w : Bool) (buf : List Char) : Option CExit × List Char × Bool :=
  if leadsWith "[HALT]".toList buf then (some CExit.halt, haltNote, w)
  else if leadsWith "[QUIT]".toList buf then (some CExit.quit, quitNote, w)
  else if leadsWith "[ABORT]".toList buf then (some CExit.abortx, abortNote, w)
  else if w then
    match splitSub "[END]".toList buf with
    | some (pre, _) => (none, cstr pre ++ ['\n'], false)
    | none => (none, cstr buf, true)
  else (none, [], w)

/-- The client's processing of a sequence of socket reads
(client.c:196-233): buffers are handled in order; once the process has
exited nothing further is read or printed. -/
def main_connection_loop : CliSt → List (List Char) → CliSt
  | s, [] => s
  | s, b :: rest =>
    if s.exited.isSome then s
    else
      let r := main_connection_step s.waiting b
      main_connection_loop { waiting := r.2.2, out := s.out ++ r.2.1, exited := r.1 } rest

/-- An oracle with failing `chdir`, empty pipeline output and a fixed
out-of-bounds byte, for concrete evaluations. -/
def orc0 : Orc :=
  { chd := (fun _ _ => none), outs := (fun _ => []), junk := 'A', cwd0 := [] }

/-- A second, different oracle, to exhibit oracle-independence. -/
def orc1 : Orc :=
  { chd := (fun _ p => some p), outs := (fun _ => "zz".toList), junk := 'B',
    cwd0 := "/".toList }

/-- Oracle whose pipelines deliver `hello` plus newline on the result
pipe, as `echo hello` does. -/
def orcEcho (junk : Char) : Orc :=
  { chd := (fun _ _ => none), outs := (fun _ => "hello\n".toList), junk := junk,
    cwd0 := [] }

/-- A stage carries at most one redirection (not both flags). -/
def singleRedir (s : Stage) : Prop := ¬(s.inF = true ∧ s.outF ≠ 0)

/-- Some redirection flag is set on the stage under construction. -/
def hasRedir (b : StageB) : Prop := b.inF = true ∨ b.outF ≠ 0

/-- The character under the scan cursor ends the current stage (`;`,
`|` or newline), or the input is exhausted. -/
def headEnder : List Char → Prop
  | [] => True
  | c :: _ => c = ';' ∨ c = '|' ∨ c = '\n'

/-! ## Helper lemmas -/

instance : Inhabited Stage where
  default := { args := [], inF := false, outF := 0, fname := [] }

/-- Characterization of `read_filename`: the filename is the non-space
prefix up to the first delimiter, the cursor ends on the delimiter. -/
theorem read_filename_spec (cs : List Char) :
    (read_filename cs).1
        = (cs.takeWhile (fun c => !rfStop c)).filter (fun c => !(c == ' '))
    ∧ (read_filename cs).2 = cs.dropWhile (fun c => !rfStop c) := by
  induction cs with
  | nil => constructor <;> rfl
  | cons c rest ih =>
    by_cases h1 : rfStop c
    · simp [read_filename, List.takeWhile_cons, List.dropWhile_cons, h1]
    · by_cases h2 : c == ' '
      · simp [read_filename, List.takeWhile_cons, List.dropWhile_cons, h1, h2,
          List.filter_cons, ih.1, ih.2]
      · simp [read_filename, List.takeWhile_cons, List.dropWhile_cons, h1, h2,
          List.filter_cons, ih.1, ih.2]

/-- The cursor returned by `read_filename` points into its input. -/
theorem read_filename_snd_subset (cs : List Char) :
    ∀ x ∈ (read_filename cs).2, x ∈ cs := by
  intro x hx
  rw [(read_filename_spec cs).2] at hx
  exact (List.dropWhile_sublist _).subset hx

/-- The execution-visible fields of the parser state (events, working
directory, segment count, crash flag): everything a `;`-free scan leaves
untouched. -/
def ExecFrame (st st' : HSt) : Prop :=
  st'.evs = st.evs ∧ st'.crashed = st.crashed ∧ st'.cwd = st.cwd ∧ st'.seg = st.seg

theorem execFrame_trans {a b c : HSt} (h1 : ExecFrame a b) (h2 : ExecFrame b c) :
    ExecFrame a c :=
  ⟨h2.1.trans h1.1, h2.2.1.trans h1.2.1, h2.2.2.1.trans h1.2.2.1, h2.2.2.2.trans h1.2.2.2⟩

theorem spaceStep_execFrame (st : HSt) : ExecFrame st (spaceStep st) := by
  unfold ExecFrame spaceStep
  split <;> simp

theorem charStep_execFrame (st : HSt) (c : Char) : ExecFrame st (charStep st c) := by
  unfold ExecFrame charStep
  simp

theorem pipeStep_execFrame (st : HSt) : ExecFrame st (pipeStep st) := by
  unfold ExecFrame pipeStep
  simp

theorem redirOut_execFrame (st : HSt) (f : List Char) (m : Nat) :
    ExecFrame st (redirOut st f m) := by
  unfold ExecFrame redirOut
  simp

theorem redirIn_execFrame (st : HSt) (f : List Char) : ExecFrame st (redirIn st f) := by
  unfold ExecFrame redirIn
  simp

/-- `ExecFrame` is reflexive. -/
theorem execFrame_rfl (st : HSt) : ExecFrame st st := ⟨rfl, rfl, rfl, rfl⟩

/-- A scan of a line without `;` never executes anything: the events,
working directory, segment counter and crash flag are untouched. -/
theorem loop_execFrame (O : Orc) (fd : Int) :
    ∀ (n : Nat) (cs : List Char), ';' ∉ cs → ∀ st : HSt,
      ExecFrame st (handle_command_loop O fd n cs st) := by
  intro n
  induction n with
  | zero => intro cs _ st; exact execFrame_rfl st
  | succ n ih =>
    intro cs hsemi st
    match cs with
    | [] => exact execFrame_rfl st
    | c :: rest =>
      have hrest : ';' ∉ rest := fun h => hsemi (List.mem_cons_of_mem _ h)
      have hc : ¬ (c = ';') := fun h => hsemi (h ▸ List.mem_cons_self c rest)
      simp only [handle_command_loop]
      by_cases h1 : c = '\n'
      · rw [if_pos h1]; exact execFrame_rfl st
      rw [if_neg h1]
      by_cases h2 : c = ' '
      · rw [if_pos h2]
        exact execFrame_trans (spaceStep_execFrame st) (ih rest hrest _)
      rw [if_neg h2]
      by_cases h3 : c = '<' ∧ rest.take 2 = ['<', '<']
      · rw [if_pos h3]
        exact ih (rest.drop 2) (fun h => hrest (List.mem_of_mem_drop h)) _
      rw [if_neg h3]
      by_cases h4 : c = '>' ∧ rest.take 1 = ['>']
      · rw [if_pos h4]
        exact execFrame_trans (redirOut_execFrame st _ 2)
          (ih _ (fun h => hrest (List.mem_of_mem_drop (read_filename_snd_subset _ _ h))) _)
      rw [if_neg h4]
      by_cases h5 : c = '>'
      · rw [if_pos h5]
        exact execFrame_trans (redirOut_execFrame st _ 1)
          (ih _ (fun h => hrest (read_filename_snd_subset _ _ h)) _)
      rw [if_neg h5]
      by_cases h6 : c = '<'
      · rw [if_pos h6]
        exact execFrame_trans (redirIn_execFrame st _)
          (ih _ (fun h => hrest (read_filename_snd_subset _ _ h)) _)
      rw [if_neg h6, if_neg hc]
      by_cases h8 : c = '|'
      · rw [if_pos h8]
        exact execFrame_trans (pipeStep_execFrame st) (ih rest hrest _)
      rw [if_neg h8]
      exact execFrame_trans (charStep_execFrame st c) (ih rest hrest _)

/-- The stage fields after a space step depend only on the stage fields. -/
theorem spaceStep_scan (st st' : HSt) (hd : st.done = st'.done) (hc : st.cur = st'.cur) :
    (spaceStep st).done = (spaceStep st').done ∧ (spaceStep st).cur = (spaceStep st').cur := by
  unfold spaceStep
  by_cases h : st.cur.curArg = []
  · have h2 : st'.cur.curArg = [] := by rw [← hc]; exact h
    rw [if_pos h, if_pos h2]
    exact ⟨hd, hc⟩
  · have h2 : ¬ st'.cur.curArg = [] := by rw [← hc]; exact h
    rw [if_neg h, if_neg h2]
    exact ⟨hd, by rw [hc]⟩

/-- The stage fields after a character step depend only on the stage fields. -/
theorem charStep_scan (st st' : HSt) (c : Char) (hd : st.done = st'.done)
    (hc : st.cur = st'.cur) :
    (charStep st c).done = (charStep st' c).done
    ∧ (charStep st c).cur = (charStep st' c).cur :=
  ⟨hd, by unfold charStep; rw [hc]⟩

/-- The stage fields after a pipe step depend only on the stage fields. -/
theorem pipeStep_scan (st st' : HSt) (hd : st.done = st'.done) (hc : st.cur = st'.cur) :
    (pipeStep st).done = (pipeStep st').done ∧ (pipeStep st).cur = (pipeStep st').cur :=
  ⟨by unfold pipeStep; rw [hd, hc], rfl⟩

/-- The stage fields after recording an output redirection depend only on
the stage fields. -/
theorem redirOut_scan (st st' : HSt) (f : List Char) (m : Nat) (hd : st.done = st'.done)
    (hc : st.cur = st'.cur) :
    (redirOut st f m).done = (redirOut st' f m).done
    ∧ (redirOut st f m).cur = (redirOut st' f m).cur :=
  ⟨hd, by unfold redirOut; rw [hc]⟩

/-- The stage fields after recording an input redirection depend only on
the stage fields. -/
theorem redirIn_scan (st st' : HSt) (f : List Char) (hd : st.done = st'.done)
    (hc : st.cur = st'.cur) :
    (redirIn st f).done = (redirIn st' f).done ∧ (redirIn st f).cur = (redirIn st' f).cur :=
  ⟨hd, by unfold redirIn; rw [hc]⟩

/-- On a `;`-free line the scan's stage accumulation depends only on the
stage fields of the state, not on the oracle, the socket or the
execution fields. -/
theorem loop_scan_eq (O O' : Orc) (fd fd' : Int) :
    ∀ (n : Nat) (cs : List Char), ';' ∉ cs → ∀ st st' : HSt,
      st.done = st'.done → st.cur = st'.cur →
      (handle_command_loop O fd n cs st).done = (handle_command_loop O' fd' n cs st').done
      ∧ (handle_command_loop O fd n cs st).cur
          = (handle_command_loop O' fd' n cs st').cur := by
  intro n
  induction n with
  | zero => intro cs _ st st' hd hc; exact ⟨hd, hc⟩
  | succ n ih =>
    intro cs hsemi st st' hd hc
    match cs with
    | [] => exact ⟨hd, hc⟩
    | c :: rest =>
      have hrest : ';' ∉ rest := fun h => hsemi (List.mem_cons_of_mem _ h)
      have hcne : ¬ (c = ';') := fun h => hsemi (h ▸ List.mem_cons_self c rest)
      simp only [handle_command_loop]
      by_cases h1 : c = '\n'
      · simp only [if_pos h1]; exact ⟨hd, hc⟩
      simp only [if_neg h1]
      by_cases h2 : c = ' '
      · simp only [if_pos h2]
        obtain ⟨hd2, hc2⟩ := spaceStep_scan st st' hd hc
        exact ih rest hrest _ _ hd2 hc2
      simp only [if_neg h2]
      by_cases h3 : c = '<' ∧ rest.take 2 = ['<', '<']
      · simp only [if_pos h3]
        exact ih (rest.drop 2) (fun h => hrest (List.mem_of_mem_drop h)) _ _ hd hc
      simp only [if_neg h3]
      by_cases h4 : c = '>' ∧ rest.take 1 = ['>']
      · simp only [if_pos h4]
        obtain ⟨hd2, hc2⟩ := redirOut_scan st st' (read_filename (rest.drop 1)).1 2 hd hc
        exact ih _ (fun h => hrest (List.mem_of_mem_drop
          (read_filename_snd_subset _ _ h))) _ _ hd2 hc2
      simp only [if_neg h4]
      by_cases h5 : c = '>'
      · simp only [if_pos h5]
        obtain ⟨hd2, hc2⟩ := redirOut_scan st st' (read_filename rest).1 1 hd hc
        exact ih _ (fun h => hrest (read_filename_snd_subset _ _ h)) _ _ hd2 hc2
      simp only [if_neg h5]
      by_cases h6 : c = '<'
      · simp only [if_pos h6]
        obtain ⟨hd2, hc2⟩ := redirIn_scan st st' (read_filename rest).1 hd hc
        exact ih _ (fun h => hrest (read_filename_snd_subset _ _ h)) _ _ hd2 hc2
      simp only [if_neg h6, if_neg hcne]
      by_cases h8 : c = '|'
      · simp only [if_pos h8]
        obtain ⟨hd2, hc2⟩ := pipeStep_scan st st' hd hc
        exact ih rest hrest _ _ hd2 hc2
      simp only [if_neg h8]
      obtain ⟨hd2, hc2⟩ := charStep_scan st st' c hd hc
      exact ih rest hrest _ _ hd2 hc2

/-- A character that is not `;`, `|` or a newline does not end a stage. -/
theorem not_ender_of_plain (c : Char) (rest : List Char) (h : headEnder (c :: rest))
    (h1 : c ≠ ';') (h2 : c ≠ '|') (h3 : c ≠ '\n') : False := by
  simp only [headEnder] at h
  rcases h with h | h | h
  exacts [h1 h, h2 h, h3 h]

/-- The space step keeps the completed stages and the current flags. -/
theorem spaceStep_keeps (st : HSt) :
    (spaceStep st).done = st.done ∧ (spaceStep st).cur.inF = st.cur.inF
    ∧ (spaceStep st).cur.outF = st.cur.outF := by
  unfold spaceStep
  split <;> exact ⟨rfl, rfl, rfl⟩

/-- The character step keeps the completed stages and the current flags. -/
theorem charStep_keeps (st : HSt) (c : Char) :
    (charStep st c).done = st.done ∧ (charStep st c).cur.inF = st.cur.inF
    ∧ (charStep st c).cur.outF = st.cur.outF :=
  ⟨rfl, rfl, rfl⟩

/-- On NUL-free input, `read_filename` leaves the cursor on `;`, `|`, a
newline, or at the end of the input. -/
theorem read_filename_snd_ender (cs : List Char) (hnul : Char.ofNat 0 ∉ cs) :
    headEnder (read_filename cs).2 := by
  induction cs with
  | nil => trivial
  | cons c rest ih =>
    have hnr : Char.ofNat 0 ∉ rest := fun h => hnul (List.mem_cons_of_mem _ h)
    by_cases h1 : rfStop c = true
    · have hc : c = ';' ∨ c = '|' ∨ c = '\n' ∨ c = Char.ofNat 0 := by
        have h := h1
        simp [rfStop] at h
        tauto
      have hcn : c ≠ Char.ofNat 0 := fun h => hnul (h ▸ List.mem_cons_self c rest)
      have he : (read_filename (c :: rest)).2 = c :: rest := by
        simp [read_filename, h1]
      rw [he]
      rcases hc with h | h | h | h
      · exact Or.inl h
      · exact Or.inr (Or.inl h)
      · exact Or.inr (Or.inr h)
      · exact absurd h hcn
    · by_cases h2 : (c == ' ') = true
      · have he : (read_filename (c :: rest)).2 = (read_filename rest).2 := by
          simp [read_filename, h1, h2]
        rw [he]
        exact ih hnr
      · have he : (read_filename (c :: rest)).2 = (read_filename rest).2 := by
          simp [read_filename, h1, h2]
        rw [he]
        exact ih hnr

/-- A `;` step either keeps the stage state (the crash returns) or
resets it (the normal reset). -/
theorem semiStep_fields (O : Orc) (fd : Int) (st : HSt) :
    ((semiStep O fd st).done = st.done ∧ (semiStep O fd st).cur = st.cur)
    ∨ ((semiStep O fd st).done = [] ∧ (semiStep O fd st).cur = freshB) := by
  simp only [semiStep]
  split_ifs <;> simp

/-- A `;` step that does not crash resets the stage state. -/
theorem semiStep_not_crashed (O : Orc) (fd : Int) (st : HSt)
    (h : (semiStep O fd st).crashed = false) :
    (semiStep O fd st).done = [] ∧ (semiStep O fd st).cur = freshB := by
  simp only [semiStep] at h ⊢
  split_ifs at h ⊢ <;> simp_all

/-- Invariant of the scan loop on NUL-free input: every completed stage
has at most one redirection flag, the current stage has at most one, and
whenever the current stage carries one the cursor rests on a character
that ends the stage.  Hence the final stage set never contains a stage
with both flags. -/
theorem loop_single_redir (O : Orc) (fd : Int) :
    ∀ (n : Nat) (cs : List Char), Char.ofNat 0 ∉ cs → ∀ st : HSt,
      (∀ s ∈ st.done, singleRedir s) →
      ¬(st.cur.inF = true ∧ st.cur.outF ≠ 0) →
      (hasRedir st.cur → headEnder cs) →
      (∀ s ∈ (handle_command_loop O fd n cs st).done, singleRedir s)
      ∧ ¬((handle_command_loop O fd n cs st).cur.inF = true
          ∧ (handle_command_loop O fd n cs st).cur.outF ≠ 0) := by
  intro n
  induction n with
  | zero => intro cs _ st hdone hcur _; exact ⟨hdone, hcur⟩
  | succ n ih =>
    intro cs hnul st hdone hcur hcond
    match cs with
    | [] => exact ⟨hdone, hcur⟩
    | c :: rest =>
      have hnr : Char.ofNat 0 ∉ rest := fun h => hnul (List.mem_cons_of_mem _ h)
      simp only [handle_command_loop]
      by_cases h1 : c = '\n'
      · rw [if_pos h1]; exact ⟨hdone, hcur⟩
      rw [if_neg h1]
      by_cases h2 : c = ' '
      · rw [if_pos h2]
        subst h2
        obtain ⟨k1, k2, k3⟩ := spaceStep_keeps st
        refine ih rest hnr _ ?_ ?_ ?_
        · intro s hs; rw [k1] at hs; exact hdone s hs
        · rintro ⟨hin, hout⟩; rw [k2] at hin; rw [k3] at hout; exact hcur ⟨hin, hout⟩
        · intro hr
          rcases hr with hin | hout
          · rw [k2] at hin
            exact (not_ender_of_plain ' ' rest (hcond (Or.inl hin))
              (by decide) (by decide) (by decide)).elim
          · rw [k3] at hout
            exact (not_ender_of_plain ' ' rest (hcond (Or.inr hout))
              (by decide) (by decide) (by decide)).elim
      rw [if_neg h2]
      by_cases h3 : c = '<' ∧ rest.take 2 = ['<', '<']
      · rw [if_pos h3]
        obtain ⟨hc3, -⟩ := h3
        subst hc3
        refine ih (rest.drop 2) (fun h => hnr (List.mem_of_mem_drop h)) _ hdone hcur ?_
        intro hr
        exact (not_ender_of_plain '<' rest (hcond hr)
          (by decide) (by decide) (by decide)).elim
      rw [if_neg h3]
      by_cases h4 : c = '>' ∧ rest.take 1 = ['>']
      · rw [if_pos h4]
        obtain ⟨hc4, -⟩ := h4
        subst hc4
        refine ih _ (fun h => hnr (List.mem_of_mem_drop
          (read_filename_snd_subset _ _ h))) _ ?_ ?_ ?_
        · intro s hs; exact hdone s hs
        · rintro ⟨hin, -⟩
          exact not_ender_of_plain '>' rest (hcond (Or.inl hin))
            (by decide) (by decide) (by decide)
        · intro hr
          exact read_filename_snd_ender (rest.drop 1) (fun h => hnr (List.mem_of_mem_drop h))
      rw [if_neg h4]
      by_cases h5 : c = '>'
      · rw [if_pos h5]
        subst h5
        refine ih _ (fun h => hnr (read_filename_snd_subset _ _ h)) _ ?_ ?_ ?_
        · intro s hs; exact hdone s hs
        · rintro ⟨hin, -⟩
          exact not_ender_of_plain '>' rest (hcond (Or.inl hin))
            (by decide) (by decide) (by decide)
        · intro hr
          exact read_filename_snd_ender rest hnr
      rw [if_neg h5]
      by_cases h6 : c = '<'
      · rw [if_pos h6]
        subst h6
        refine ih _ (fun h => hnr (read_filename_snd_subset _ _ h)) _ ?_ ?_ ?_
        · intro s hs; exact hdone s hs
        · rintro ⟨-, hout⟩
          exact not_ender_of_plain '<' rest (hcond (Or.inr hout))
            (by decide) (by decide) (by decide)
        · intro hr
          exact read_filename_snd_ender rest hnr
      rw [if_neg h6]
      by_cases h7 : c = ';'
      · rw [if_pos h7]
        by_cases hcr : (semiStep O fd st).crashed = true
        · rw [if_pos hcr]
          rcases semiStep_fields O fd st with ⟨hd2, hc2⟩ | ⟨hd2, hc2⟩
          · refine ⟨?_, ?_⟩
            · intro s hs; rw [hd2] at hs; exact hdone s hs
            · rintro ⟨hin, hout⟩; rw [hc2] at hin; rw [hc2] at hout; exact hcur ⟨hin, hout⟩
          · refine ⟨?_, ?_⟩
            · intro s hs; rw [hd2] at hs; exact absurd hs (List.not_mem_nil s)
            · rintro ⟨hin, -⟩; rw [hc2] at hin; exact absurd hin (by decide)
        · rw [if_neg hcr]
          have hcrf : (semiStep O fd st).crashed = false := by
            cases h : (semiStep O fd st).crashed
            · rfl
            · exact absurd h hcr
          obtain ⟨hd2, hc2⟩ := semiStep_not_crashed O fd st hcrf
          refine ih rest hnr _ ?_ ?_ ?_
          · intro s hs; rw [hd2] at hs; exact absurd hs (List.not_mem_nil s)
          · rintro ⟨hin, -⟩; rw [hc2] at hin; exact absurd hin (by decide)
          · intro hr
            rcases hr with hin | hout
            · rw [hc2] at hin; exact absurd hin (by decide)
            · rw [hc2] at hout; exact absurd rfl hout
      rw [if_neg h7]
      by_cases h8 : c = '|'
      · rw [if_pos h8]
        refine ih rest hnr _ ?_ ?_ ?_
        · intro s hs
          have hs2 : s ∈ st.done ++ [finishStage st.cur] := hs
          rcases List.mem_append.mp hs2 with h | h
          · exact hdone s h
          · have he : s = finishStage st.cur := by simpa using h
            rw [he]
            rintro ⟨hin, hout⟩
            exact hcur ⟨hin, hout⟩
        · rintro ⟨hin, -⟩
          exact absurd hin (by simp [pipeStep, freshB])
        · intro hr
          rcases hr with hin | hout
          · exact absurd hin (by simp [pipeStep, freshB])
          · exact absurd rfl hout
      rw [if_neg h8]
      obtain ⟨k1, k2, k3⟩ := charStep_keeps st c
      refine ih rest hnr _ ?_ ?_ ?_
      · intro s hs; rw [k1] at hs; exact hdone s hs
      · rintro ⟨hin, hout⟩; rw [k2] at hin; rw [k3] at hout; exact hcur ⟨hin, hout⟩
      · intro hr
        rcases hr with hin | hout
        · rw [k2] at hin
          exact (not_ender_of_plain c rest (hcond (Or.inl hin)) h7 h8 h1).elim
        · rw [k3] at hout
          exact (not_ender_of_plain c rest (hcond (Or.inr hout)) h7 h8 h1).elim

/-- Head of a list with one element appended. -/
theorem headD_append_single {α : Type} (l : List α) (x d : α) :
    (l ++ [x]).headD d = l.headD x := by
  cases l <;> rfl

/-- Any non-`halt` pipeline executed with `not_all_flag = 0` for a
connected client writes exactly one terminal marker. -/
theorem execute_command_one_marker (O : Orc) (fd : Int) (stages : List Stage)
    (out cwd : List Char) (hfd : 0 < fd) (hne : stages ≠ [])
    (hhead : (stages.headD default).args ≠ [])
    (hhalt : (stages.headD default).args.headD [] ≠ "halt".toList) :
    countTerminal (execute_command O fd stages false out cwd).1 = 1 := by
  match stages with
  | [] => exact absurd rfl hne
  | s0 :: rest =>
    simp only [List.headD] at hhead hhalt
    match ha : s0.args with
    | [] => exact absurd ha hhead
    | a0 :: as =>
      rw [ha] at hhalt
      simp only [List.headD] at hhalt
      simp only [execute_command, ha]
      rw [if_neg hhalt]
      by_cases h2 : a0 = "help".toList
      · rw [if_pos h2, if_pos hfd]
        rfl
      rw [if_neg h2]
      by_cases h3 : a0 = "cd".toList
      · rw [if_pos h3]
        match as with
        | [] => simp [countTerminal, isMarkerEv, hfd]
        | p :: as2 =>
          simp only [List.getElem?_cons_succ, List.getElem?_cons_zero]
          cases O.chd cwd p with
          | none => simp [countTerminal, isMarkerEv, hfd]
          | some cwd2 => simp [countTerminal, isMarkerEv, hfd]
      rw [if_neg h3]
      rcases hf : (s0 :: rest).find? (fun s => !decide (s.outF = 0)) with _ | s <;>
        by_cases ho : 0 < fd ∧ out ≠ [] <;>
          simp [hf, ho, countTerminal, isMarkerEv, List.filter_append]

/-! ## Claim theorems -/

/-- C1 counterexample: a whitespace-only command line from a connected
client is handled without writing any byte at all - in particular zero
terminal markers, not exactly one.  (The claim asserts exactly one
terminal marker even for an empty command.) -/
theorem blank_line_writes_no_marker :
    countTerminal (handle_command orc0 1 (" \n".toList)).evs = 0
    ∧ (handle_command orc0 1 (" \n".toList)).evs = [] := by
  constructor <;> rfl

/-- C1 (amended): for a command line sent by a connected client
(`client_fd > 0`) that contains no `;` and whose first token is not
`halt`, handling the line writes exactly one terminal marker when the
parse passes the non-empty guard, and zero terminal markers when the
guard rejects it (blank line, or a pipeline whose first or last stage
has no arguments). -/
theorem handle_command_one_marker (O : Orc) (fd : Int) (cs : List Char)
    (hfd : 0 < fd) (hsemi : ';' ∉ cs) (hhalt : firstTok O fd cs ≠ "halt".toList) :
    countTerminal (handle_command O fd cs).evs
      = if accepted O fd cs = true then 1 else 0 := by
  obtain ⟨hevs, hcr, hcwd, hseg⟩ := loop_execFrame O fd cs.length cs hsemi (initSt O)
  have hevs0 : (parseRun O fd cs).evs = [] := hevs
  have hcr0 : (parseRun O fd cs).crashed = false := hcr
  by_cases hg : guardFails (parseRun O fd cs) = true
  · simp [handle_command, accepted, hcr0, hg, hevs0, countTerminal]
  · have hg0 : guardFails (parseRun O fd cs) = false := by
      cases h : guardFails (parseRun O fd cs)
      · rfl
      · exact absurd h hg
    have hgp := hg0
    simp only [guardFails, Bool.or_eq_false_iff, decide_eq_false_iff_not] at hgp
    have hone := execute_command_one_marker O fd
      ((parseRun O fd cs).done ++ [finishStage (parseRun O fd cs).cur])
      (O.outs (parseRun O fd cs).seg) (parseRun O fd cs).cwd hfd (by simp)
      (by rw [headD_append_single]; exact hgp.2)
      (by rw [headD_append_single]; exact hhalt)
    simpa [handle_command, accepted, hcr0, hg0, hevs0, countTerminal] using hone

/-- C1 witness: `echo hi` is accepted and yields exactly one marker. -/
theorem handle_command_one_marker_witness :
    countTerminal (handle_command orc0 1 ("echo hi\n".toList)).evs = 1 :=
  (handle_command_one_marker orc0 1 ("echo hi\n".toList) (by decide) (by decide)
    (by decide)).trans (by decide)

/-- C9: parsing is deterministic on a `;`-free line (a pure parse that
triggers no execution): the resulting pipeline - stage count, argument
vectors, redirection flags and filenames - depends only on the input
characters, not on the oracle, the socket, or any prior state, so two
parses of the same line are structurally identical. -/
theorem parse_deterministic (O O' : Orc) (fd fd' : Int) (cs : List Char)
    (hsemi : ';' ∉ cs) :
    parsedStages O fd cs = parsedStages O' fd' cs
    ∧ (parsedStages O fd cs).length = (parsedStages O' fd' cs).length
    ∧ (parsedStages O fd cs).map Stage.args = (parsedStages O' fd' cs).map Stage.args
    ∧ (parsedStages O fd cs).map Stage.inF = (parsedStages O' fd' cs).map Stage.inF
    ∧ (parsedStages O fd cs).map Stage.outF = (parsedStages O' fd' cs).map Stage.outF
    ∧ (parsedStages O fd cs).map Stage.fname = (parsedStages O' fd' cs).map Stage.fname := by
  obtain ⟨hd, hc⟩ := loop_scan_eq O O' fd fd' cs.length cs hsemi (initSt O) (initSt O') rfl rfl
  have hmain : parsedStages O fd cs = parsedStages O' fd' cs := by
    unfold parsedStages parseRun
    rw [hd, hc]
  exact ⟨hmain, by rw [hmain], by rw [hmain], by rw [hmain], by rw [hmain], by rw [hmain]⟩

/-- C9 witness: the same pipeline parses identically under two different
oracles and sockets. -/
theorem parse_deterministic_witness :
    parsedStages orc0 1 ("a b | c < g\n".toList) = parsedStages orc1 7 ("a b | c < g\n".toList) :=
  (parse_deterministic orc0 orc1 1 7 ("a b | c < g\n".toList) (by decide)).1

/-- C2 (code bug): for the single-stage, redirection-free command
`echo hello` the server writes the captured output followed by a 7-byte
write taken from the 6-byte literal `[END]` (server.c:282, `write(fd,
"[END]", 7)`): the five marker bytes, the NUL terminator, and one
out-of-bounds byte.  The byte stream is therefore the body plus `[END]`
plus two extra bytes - not the five-byte marker and nothing else. -/
theorem echo_end_marker_is_seven_bytes (junk : Char) :
    flattenEvs (handle_command (orcEcho junk) 1 ("echo hello\n".toList)).evs
      = "hello\n[END]".toList ++ [Char.ofNat 0, junk]
    ∧ (flattenEvs (handle_command (orcEcho junk) 1 ("echo hello\n".toList)).evs).length
      = "hello\n[END]".toList.length + 2 := by
  constructor <;> rfl

/-- C4 counterexample: parsing `cat < a > b` does NOT give the stage an
input redirection from `a` and an output redirection to `b`.
`read_filename` does not stop at `>`, so the whole remainder `a > b`
becomes the single input filename `a>b`, the output flag is never set,
and the executed stage opens the file literally named `a>b` read-only as
stdin while its stdout goes to the result pipe. -/
theorem redirection_pair_counterexample :
    parsedStages orc0 1 ("cat < a > b\n".toList)
      = [{ args := ["cat".toList], inF := true, outF := 0, fname := "a>b".toList }]
    ∧ stage_stdin { args := ["cat".toList], inF := true, outF := 0, fname := "a>b".toList } 0
      = ChildIn.fileRead ("a>b".toList)
    ∧ stage_stdout { args := ["cat".toList], inF := true, outF := 0, fname := "a>b".toList } 0 0
      = ChildOut.resultPipe := by
  refine ⟨by decide, rfl, rfl⟩

/-- C4 (amended): on every command line free of NUL bytes, no parsed
stage ever carries both an input and an output redirection - the first
redirection operator's `read_filename` call swallows every later `<`/`>`
up to `;`, `|` or end of line into the filename, so the claimed
both-redirection stage is unreachable - and execution wires the single
recorded file per flag: input flag set installs `filenames[i]` opened
read-only as stdin, output flag 1 installs it truncate-mode as stdout,
flag 2 append-mode. -/
theorem single_redirection_parse_wiring :
    (∀ (O : Orc) (fd : Int) (cs : List Char), Char.ofNat 0 ∉ cs →
        ∀ s ∈ parsedStages O fd cs, ¬(s.inF = true ∧ s.outF ≠ 0))
    ∧ (∀ (s : Stage) (i n : Nat),
        (s.inF = true → stage_stdin s i = ChildIn.fileRead s.fname)
        ∧ (s.outF = 1 → stage_stdout s i n = ChildOut.fileTrunc s.fname)
        ∧ (s.outF = 2 → stage_stdout s i n = ChildOut.fileAppend s.fname)) := by
  constructor
  · intro O fd cs hnul s hs
    obtain ⟨hdone, hcur⟩ := loop_single_redir O fd cs.length cs hnul (initSt O)
      (fun s hs => absurd hs (List.not_mem_nil s))
      (by rintro ⟨hin, -⟩; exact Bool.false_ne_true hin)
      (by rintro (hin | hout)
          · exact (Bool.false_ne_true hin).elim
          · exact (hout rfl).elim)
    have hs2 : s ∈ (parseRun O fd cs).done ++ [finishStage (parseRun O fd cs).cur] := hs
    rcases List.mem_append.mp hs2 with h | h
    · exact hdone s h
    · have he : s = finishStage (parseRun O fd cs).cur := by simpa using h
      rw [he]
      rintro ⟨hin, hout⟩
      exact hcur ⟨hin, hout⟩
  · intro s i n
    refine ⟨fun h => ?_, fun h => ?_, fun h => ?_⟩ <;> simp [stage_stdin, stage_stdout, h]

/-- C4 witness: the `cat < a > b` line (NUL-free) parses with no
both-flag stage, and a stage with the input flag reads its recorded
file. -/
theorem single_redirection_parse_wiring_witness :
    (∀ s ∈ parsedStages orc0 1 ("cat < a > b\n".toList), ¬(s.inF = true ∧ s.outF ≠ 0))
    ∧ stage_stdin { args := ["cat".toList], inF := true, outF := 0, fname := "a".toList } 2
        = ChildIn.fileRead ("a".toList) :=
  ⟨single_redirection_parse_wiring.1 orc0 1 ("cat < a > b\n".toList) (by decide),
    (single_redirection_parse_wiring.2 _ 2 0).1 rfl⟩

/-- C5: the `cd` built-in (server.c:151-172) run for a connected client:
with an argument that cannot be entered (`chdir` fails) the response is
exactly the body `[ERROR] cd: directory doesn't exist` plus newline
followed by a 5-byte `[END]`, and the working directory is unchanged;
with no argument the response is the text `[ERROR] cd: missing argument`
plus newline followed by `[END]`, the working directory is unchanged,
and in both cases the serving process continues normally (no crash). -/
theorem cd_builtin_errors (O : Orc) (fd : Int) (cwd out p : List Char)
    (r : List (List Char)) (rest : List Stage) (b1 b2 : Bool) (m1 m2 : Nat)
    (f1 f2 : List Char) (hfd : 0 < fd) (hch : O.chd cwd p = none) :
    execute_command O fd
        ({ args := "cd".toList :: p :: r, inF := b1, outF := m1, fname := f1 } :: rest)
        false out cwd
      = ([Ev.data fd ("[ERROR] cd: directory doesn't exist\n".toList), Ev.end5 fd], cwd, false)
    ∧ execute_command O fd
        ({ args := ["cd".toList], inF := b2, outF := m2, fname := f2 } :: rest)
        false out cwd
      = ([Ev.data fd ("[ERROR] cd: missing argument\n".toList), Ev.end5 fd], cwd, false) := by
  constructor
  · simp only [execute_command]
    rw [if_neg (by decide), if_neg (by decide), if_pos trivial]
    simp only [List.getElem?_cons_succ, List.getElem?_cons_zero, hch]
    rw [if_pos hfd]
    rfl
  · simp only [execute_command]
    rw [if_neg (by decide), if_neg (by decide), if_pos trivial]
    simp only [List.getElem?_cons_succ, List.getElem?_cons_zero]
    rw [if_pos hfd]
    rfl

/-- C5 witness: `cd /nope` under an oracle whose `chdir` fails. -/
theorem cd_builtin_errors_witness :
    execute_command orc0 1
        ({ args := ["cd".toList, "/nope".toList], inF := false, outF := 0, fname := [] } :: [])
        false [] ("/h".toList)
      = ([Ev.data 1 ("[ERROR] cd: directory doesn't exist\n".toList), Ev.end5 1],
          "/h".toList, false)
    ∧ execute_command orc0 1
        ({ args := ["cd".toList], inF := false, outF := 0, fname := [] } :: [])
        false [] ("/h".toList)
      = ([Ev.data 1 ("[ERROR] cd: missing argument\n".toList), Ev.end5 1],
          "/h".toList, false) :=
  cd_builtin_errors orc0 1 ("/h".toList) [] ("/nope".toList) [] [] false false 0 0 [] []
    (by decide) rfl

/-- C6: the tokenizer checks `>>` before `>` - `cmd >> f` sets the
append-mode output flag (2) while `cmd > f` sets truncate mode (1) and
`cmd < f` sets the input flag - and `read_filename` collects exactly the
non-space characters up to the next `;`, `|`, newline or end of string
(NUL), skipping embedded spaces, leaving the cursor on the delimiter. -/
theorem redirection_tokenizing :
    (∀ cs : List Char,
        (read_filename cs).1
            = (cs.takeWhile (fun c => !rfStop c)).filter (fun c => !(c == ' '))
        ∧ (read_filename cs).2 = cs.dropWhile (fun c => !rfStop c))
    ∧ parsedStages orc0 1 ("cmd >> f\n".toList)
        = [{ args := ["cmd".toList], inF := false, outF := 2, fname := "f".toList }]
    ∧ parsedStages orc0 1 ("cmd > f\n".toList)
        = [{ args := ["cmd".toList], inF := false, outF := 1, fname := "f".toList }]
    ∧ parsedStages orc0 1 ("cmd < f\n".toList)
        = [{ args := ["cmd".toList], inF := true, outF := 0, fname := "f".toList }]
    ∧ (read_filename (" a b;x".toList)).1 = "ab".toList :=
  ⟨read_filename_spec, by decide, by decide, by decide, by decide⟩

/-- C7 (code bug): the parser has no capacity checks at all.  A 21
character argument (capacity is `max_arg_length = 20`) is stored in full:
the 21st store `args[0][0][20] = ...` writes past the calloc'd buffer
(out-of-bounds write), no error of any kind is raised, and parsing
completes normally with the oversized argument. -/
theorem arg_overflow_unchecked :
    (parseRun orc0 1 (List.replicate 21 'a' ++ ['\n'])).oob = true
    ∧ parsedStages orc0 1 (List.replicate 21 'a' ++ ['\n'])
        = [{ args := [List.replicate 21 'a'], inF := false, outF := 0, fname := [] }]
    ∧ (parseRun orc0 1 (List.replicate 21 'a' ++ ['\n'])).crashed = false := by
  refine ⟨by decide, by decide, by decide⟩

/-- `abort_connection` is exactly first-match removal. -/
theorem abort_connection_eq_eraseP (id pid : Int) (l : List connection_node) :
    abort_connection l id pid = l.eraseP (fun n => n.id == id || n.pid == pid) := by
  induction l with
  | nil => rfl
  | cons n rest ih =>
    by_cases h : n.id = id ∨ n.pid = pid
    · have hb : (n.id == id || n.pid == pid) = true := by
        rcases h with h | h <;> simp [h]
      simp [abort_connection, List.eraseP_cons, h, hb]
    · have h2 := h
      rw [not_or] at h2
      have hb : (n.id == id || n.pid == pid) = false := by
        simp [h2.1, h2.2]
      simp [abort_connection, List.eraseP_cons, h, hb, ih]

/-- C10: one call to `abort_connection` removes at most one node - the
first node (scanning from the head) whose id or pid matches - leaving
every other node, with all its fields, unchanged and in order; this is
exactly `List.eraseP` of the match predicate.  When no node matches, the
list is returned unchanged. -/
theorem abort_connection_frame (id pid : Int) (l : List connection_node) :
    abort_connection l id pid = l.eraseP (fun n => n.id == id || n.pid == pid)
    ∧ ((∀ n ∈ l, ¬(n.id = id ∨ n.pid = pid)) → abort_connection l id pid = l) := by
  refine ⟨abort_connection_eq_eraseP id pid l, fun h => ?_⟩
  rw [abort_connection_eq_eraseP id pid l]
  apply List.eraseP_of_forall_not
  intro a ha
  have h2 := h a ha
  rw [not_or] at h2
  simp [h2.1, h2.2]

/-- C10 witness: a matching singleton is removed; a non-matching list is
returned unchanged. -/
theorem abort_connection_frame_witness :
    abort_connection [{ id := 1, fd := 5, pid := 100 }] 1 (-1)
      = List.eraseP (fun n => n.id == 1 || n.pid == -1)
          [({ id := 1, fd := 5, pid := 100 } : connection_node)]
    ∧ abort_connection [{ id := 1, fd := 5, pid := 100 }] 2 (-1)
      = [{ id := 1, fd := 5, pid := 100 }] :=
  ⟨(abort_connection_frame 1 (-1) _).1,
   (abort_connection_frame 2 (-1) [{ id := 1, fd := 5, pid := 100 }]).2 (by decide)⟩

/-- `find_fd` called with `abort_id = -1` searches by pid, provided no
node carries the sentinel id `-1`. -/
theorem find_fd_by_pid (p : Int) (hp : p ≠ 0) :
    ∀ l : List connection_node, (∀ n ∈ l, n.id ≠ -1) →
      find_fd l p (-1)
        = ((l.find? (fun n => n.pid == p)).map connection_node.fd).getD (-1) := by
  intro l
  induction l with
  | nil => intro _; rfl
  | cons n rest ih =>
    intro hids
    by_cases h1 : n.pid = p
    · rw [List.find?_cons_of_pos rest (by simp [h1])]
      simp [find_fd, hp, h1]
    · have h2 : n.id ≠ -1 := hids n (List.mem_cons_self _ _)
      rw [List.find?_cons_of_neg rest (by simp [h1])]
      rw [← ih (fun m hm => hids m (List.mem_cons_of_mem _ hm))]
      simp [find_fd, h1, h2]

/-- `find_fd` called with `sender_pid = -1` searches by id, provided no
node carries the sentinel pid `-1`. -/
theorem find_fd_by_id (t : Int) (ht : t ≠ 0) :
    ∀ l : List connection_node, (∀ n ∈ l, n.pid ≠ -1) →
      find_fd l (-1) t
        = ((l.find? (fun n => n.id == t)).map connection_node.fd).getD (-1) := by
  intro l
  induction l with
  | nil => intro _; rfl
  | cons n rest ih =>
    intro hpids
    have h2 : n.pid ≠ -1 := hpids n (List.mem_cons_self _ _)
    by_cases h1 : n.id = t
    · rw [List.find?_cons_of_pos rest (by simp [h1])]
      simp [find_fd, ht, h1, h2]
    · rw [List.find?_cons_of_neg rest (by simp [h1])]
      rw [← ih (fun m hm => hpids m (List.mem_cons_of_mem _ hm))]
      simp [find_fd, h1, h2]

/-- `abort_connection` with the pid sentinel `-1` removes exactly the
first node with the given id. -/
theorem abort_connection_id_only (t : Int) :
    ∀ l : List connection_node, (∀ n ∈ l, n.pid ≠ -1) →
      abort_connection l t (-1) = l.eraseP (fun n => n.id == t) := by
  intro l
  induction l with
  | nil => intro _; rfl
  | cons n rest ih =>
    intro hpids
    have hnp : n.pid ≠ -1 := hpids n (List.mem_cons_self _ _)
    by_cases h : n.id = t
    · have hb : (n.id == t) = true := by simp [h]
      simp [abort_connection, List.eraseP_cons, h, hb]
    · have hb : (n.id == t) = false := by simp [h]
      simp [abort_connection, List.eraseP_cons, h, hnp, hb,
        ih (fun m hm => hpids m (List.mem_cons_of_mem _ hm))]

/-- C3: the coordinator's handling of `Abort{targetId = t}` from the
worker with pid `p`, when the registry maps `t` to a session `nt` and
`p` to a session `np` (registry invariants: ids and pids positive, fds
non-negative, as established by `add_connection`): if both map to the
same socket, exactly one `[ABORT]` + `[END]` pair is written to that
socket and nothing else; otherwise the requester's socket receives the
info frame and `[END]`, the target's socket receives `[ABORT]` and
`[END]`, and the target session (id `t`) is removed from the registry. -/
theorem abort_request_routing (l : List connection_node) (t p : Int)
    (nt np : connection_node)
    (hids : ∀ n ∈ l, 0 < n.id) (hpids : ∀ n ∈ l, 0 < n.pid) (hfds : ∀ n ∈ l, 0 ≤ n.fd)
    (hT : l.find? (fun n => n.id == t) = some nt)
    (hP : l.find? (fun n => n.pid == p) = some np) :
    (np.fd = nt.fd → (abort_request_step l t p).1 = [Ev.abortM nt.fd, Ev.end5 nt.fd])
    ∧ (np.fd ≠ nt.fd →
        (abort_request_step l t p).1
          = [Ev.data np.fd (infoAborted t), Ev.end5 np.fd, Ev.abortM nt.fd, Ev.end5 nt.fd]
        ∧ (abort_request_step l t p).2 = l.eraseP (fun n => n.id == t)) := by
  have hntl : nt ∈ l := List.mem_of_find?_eq_some hT
  have hnpl : np ∈ l := List.mem_of_find?_eq_some hP
  have hidt : nt.id = t := by simpa using List.find?_some hT
  have hpidp : np.pid = p := by simpa using List.find?_some hP
  have ht0 : t ≠ 0 := by have h := hids nt hntl; rw [hidt] at h; omega
  have hp0 : p ≠ 0 := by have h := hpids np hnpl; rw [hpidp] at h; omega
  have hids2 : ∀ n ∈ l, n.id ≠ -1 := fun n hn => by have := hids n hn; omega
  have hpids2 : ∀ n ∈ l, n.pid ≠ -1 := fun n hn => by have := hpids n hn; omega
  have hsf : find_fd l p (-1) = np.fd := by
    rw [find_fd_by_pid p hp0 l hids2, hP]; rfl
  have haf : find_fd l (-1) t = nt.fd := by
    rw [find_fd_by_id t ht0 l hpids2, hT]; rfl
  constructor
  · intro he
    simp only [abort_request_step, hsf, haf, he]
    simp
  · intro hne
    constructor
    · simp only [abort_request_step, hsf, haf]
      rw [if_neg hne, if_pos (hfds np hnpl), if_pos (hfds nt hntl)]
      rfl
    · simp only [abort_request_step]
      exact abort_connection_id_only t l hpids2

/-- C3 witness: a registry with two sessions; session 200 aborts id 1. -/
theorem abort_request_routing_witness :
    (abort_request_step [{ id := 2, fd := 7, pid := 200 }, { id := 1, fd := 5, pid := 100 }]
        1 200).1
      = [Ev.data 7 (infoAborted 1), Ev.end5 7, Ev.abortM 5, Ev.end5 5]
    ∧ (abort_request_step [{ id := 2, fd := 7, pid := 200 }, { id := 1, fd := 5, pid := 100 }]
        1 200).2
      = List.eraseP (fun n => n.id == 1)
          [({ id := 2, fd := 7, pid := 200 } : connection_node),
            { id := 1, fd := 5, pid := 100 }] :=
  abort_request_routing
    [{ id := 2, fd := 7, pid := 200 }, { id := 1, fd := 5, pid := 100 }] 1 200
    { id := 1, fd := 5, pid := 100 } { id := 2, fd := 7, pid := 200 }
    (by decide) (by decide) (by decide) (by decide) (by decide)
    |>.2 (by decide)

/-- Once the client has exited, later reads change nothing. -/
theorem main_connection_loop_stopped (s : CliSt) (hs : s.exited.isSome = true)
    (reads : List (List Char)) : main_connection_loop s reads = s := by
  cases reads with
  | nil => rfl
  | cons b rest => simp [main_connection_loop, hs]

/-- C8 counterexample: the accumulated bytes contain the terminal marker
`[HALT]`, but because the client only tests `strncmp(buffer, "[HALT]",
6)` - a prefix match on the single read buffer - a `[HALT]` preceded by
one data byte in the same read is NOT detected: the client prints the
bytes as ordinary output, does not terminate, and keeps awaiting. -/
theorem marker_mid_buffer_not_detected :
    hasSub ("[HALT]".toList) ("x[HALT]".toList) = true
    ∧ main_connection_loop { waiting := true, out := [], exited := none } [("x[HALT]".toList)]
        = { waiting := true, out := "x[HALT]".toList, exited := none } := by
  constructor <;> rfl

/-- C8 (amended): the client detects markers per individual `read`
buffer.  `[HALT]`, `[QUIT]` and `[ABORT]` are recognized only as a
literal prefix of one buffer; when so positioned the client prints the
corresponding message and terminates immediately, and no later read is
processed (so no further command is ever sent).  `[END]` is recognized
by substring search within one buffer while awaiting a response: the
bytes before its first occurrence are printed and the client returns to
the idle state. -/
theorem client_marker_detection (w : Bool) (out0 buf : List Char)
    (reads : List (List Char)) :
    (leadsWith "[HALT]".toList buf = true →
        main_connection_loop { waiting := w, out := out0, exited := none } (buf :: reads)
          = { waiting := w, out := out0 ++ haltNote, exited := some CExit.halt })
    ∧ (leadsWith "[HALT]".toList buf = false → leadsWith "[QUIT]".toList buf = true →
        main_connection_loop { waiting := w, out := out0, exited := none } (buf :: reads)
          = { waiting := w, out := out0 ++ quitNote, exited := some CExit.quit })
    ∧ (leadsWith "[HALT]".toList buf = false → leadsWith "[QUIT]".toList buf = false →
        leadsWith "[ABORT]".toList buf = true →
        main_connection_loop { waiting := w, out := out0, exited := none } (buf :: reads)
          = { waiting := w, out := out0 ++ abortNote, exited := some CExit.abortx })
    ∧ (∀ pre post,
        leadsWith "[HALT]".toList buf = false → leadsWith "[QUIT]".toList buf = false →
        leadsWith "[ABORT]".toList buf = false →
        splitSub ("[END]".toList) buf = some (pre, post) →
        main_connection_loop { waiting := true, out := out0, exited := none } [buf]
          = { waiting := false, out := out0 ++ (cstr pre ++ ['\n']), exited := none }) := by
  refine ⟨fun h1 => ?_, fun h1 h2 => ?_, fun h1 h2 h3 => ?_, fun pre post h1 h2 h3 h4 => ?_⟩
  · rw [main_connection_loop, if_neg (by simp)]
    have hr : main_connection_step w buf = (some CExit.halt, haltNote, w) := by
      rw [main_connection_step, if_pos h1]
    rw [hr]
    exact main_connection_loop_stopped
      { waiting := w, out := out0 ++ haltNote, exited := some CExit.halt } rfl reads
  · rw [main_connection_loop, if_neg (by simp)]
    have hr : main_connection_step w buf = (some CExit.quit, quitNote, w) := by
      rw [main_connection_step, if_neg (by simpa using h1), if_pos h2]
    rw [hr]
    exact main_connection_loop_stopped
      { waiting := w, out := out0 ++ quitNote, exited := some CExit.quit } rfl reads
  · rw [main_connection_loop, if_neg (by simp)]
    have hr : main_connection_step w buf = (some CExit.abortx, abortNote, w) := by
      rw [main_connection_step, if_neg (by simpa using h1), if_neg (by simpa using h2), if_pos h3]
    rw [hr]
    exact main_connection_loop_stopped
      { waiting := w, out := out0 ++ abortNote, exited := some CExit.abortx } rfl reads
  · rw [main_connection_loop, if_neg (by simp)]
    have hr : main_connection_step true buf = (none, cstr pre ++ ['\n'], false) := by
      rw [main_connection_step, if_neg (by simpa using h1), if_neg (by simpa using h2),
        if_neg (by simpa using h3), if_pos rfl, h4]
    rw [hr]
    rfl

/-- C8 witness: a read starting with `[HALT]` terminates the client at
once and a queued later read is never processed. -/
theorem client_marker_detection_witness :
    main_connection_loop { waiting := true, out := [], exited := none }
        ("[HALT]".toList :: ["zz".toList])
      = { waiting := true, out := [] ++ haltNote, exited := some CExit.halt } :=
  (client_marker_detection true [] ("[HALT]".toList) ["zz".toList]).1 (by decide)
